import Mathlib

/-!
Verification of the markdown-documentation compiler
(`bin/compile_language_docs.py`).

The program is embedded shallowly: filesystem paths are lists of
segments, the filesystem is a list of entries tagged with a kind,
reading a file is a function from paths to strings, and the writer is a
transition on an explicit output state (standard output, directories,
file contents).  Each Python function is translated to a Lean
definition of the same name.
-/

namespace DocsCompiler

/-- A filesystem path, as the list of its segments (the `parts` of a
Python `Path`). -/
abbrev FsPath := List String

/-- Rendering of a path as Python `str(path)` renders a relative
`PurePosixPath`: segments joined by a slash, and `.` for the empty
path. -/
def pathStr (p : FsPath) : String :=
  if p = [] then "." else String.intercalate "/" p

/-- The characters stripped by Python `str.rstrip()` with no argument
(ASCII whitespace). -/
def isPySpace (c : Char) : Bool :=
  c = ' ' || c = '\t' || c = '\n' || c = '\r' || c.toNat = 11 || c.toNat = 12

/-- Python `content.rstrip()`: remove all trailing whitespace. -/
def pyRstrip (s : String) : String :=
  String.mk ((s.data.reverse.dropWhile isPySpace).reverse)

/-- Python `path.relative_to(root)`: the remainder of `path` past the
prefix `root`, or a `ValueError` (modelled as `none`) when `root` is
not a prefix of `path`. -/
def relative_to (path root : FsPath) : Option FsPath :=
  if root.isPrefixOf path then some (path.drop root.length) else none

/-- The loop body of `build_compilation`: one section string per file,
`# File: <relative path>`, a blank line, the content right-stripped,
and one newline.  The first `ValueError` from `relative_to` aborts the
whole loop, hence the `Option`. -/
def buildSections (repo_root : FsPath) (readText : FsPath → String) :
    List FsPath → Option (List String)
  | [] => some []
  | path :: rest =>
    match relative_to path repo_root with
    | none => none
    | some rel_path =>
      match buildSections repo_root readText rest with
      | none => none
      | some sections =>
        some (("# File: " ++ pathStr rel_path ++ "\n\n"
          ++ pyRstrip (readText path) ++ "\n") :: sections)

/-- `build_compilation(md_files, repo_root)`: the sections joined by
`"\n\n---\n\n"`, with one final `"\n"` appended.  File contents are
supplied by `readText`. -/
def build_compilation (md_files : List FsPath) (repo_root : FsPath)
    (readText : FsPath → String) : Option String :=
  match buildSections repo_root readText md_files with
  | none => none
  | some sections => some (String.intercalate "\n\n---\n\n" sections ++ "\n")

/-- The section format stated by the specification, per file: the
heading line naming the root-relative path, a blank line, the content
with trailing whitespace stripped, one trailing newline. -/
def specSection (repo_root : FsPath) (readText : FsPath → String)
    (p : FsPath) : String :=
  "# File: " ++ pathStr (p.drop repo_root.length) ++ "\n\n"
    ++ pyRstrip (readText p) ++ "\n"

/-! ### The filesystem model and the collector -/

/-- The kind of a directory entry: a regular file, a directory, or
anything else (so that `is_file()` is a real test). -/
inductive EntryKind : Type
  | file : EntryKind
  | dir : EntryKind
  | other : EntryKind
deriving DecidableEq

/-- One filesystem entry: a path and its kind. -/
structure FsEntry : Type where
  path : FsPath
  kind : EntryKind
deriving DecidableEq

/-- A filesystem: the list of its entries. -/
structure Fs : Type where
  entries : List FsEntry
deriving DecidableEq

/-- `path` lies strictly beneath `root` (what `root.rglob` can
yield). -/
def isUnder (root p : FsPath) : Bool :=
  root.isPrefixOf p && decide (root.length < p.length)

/-- The glob pattern `*.md`: the final segment (the file name) ends
with `.md`. -/
def matchesMdPattern (p : FsPath) : Bool :=
  match p.getLast? with
  | some name => ".md".data.isSuffixOf name.data
  | none => false

/-- `docs_dir.exists()`: some entry has this path. -/
def pathExists (fs : Fs) (p : FsPath) : Bool :=
  fs.entries.any (fun e => decide (e.path = p))

/-! ### Ordering of paths

Python compares the relative paths (tuples of string segments)
lexicographically, strings by code point.  The comparisons below are
structural so that they evaluate on concrete inputs. -/

/-- Generic strict lexicographic order on lists, from a strict order on
elements. -/
def lexLt {α : Type} (lt : α → α → Bool) : List α → List α → Bool
  | [], [] => false
  | [], _ :: _ => true
  | _ :: _, [] => false
  | a :: as, b :: bs =>
    if lt a b then true else if lt b a then false else lexLt lt as bs

/-- Strict order on characters, by code point. -/
def charLt (c d : Char) : Bool := decide (c < d)

/-- Strict order on strings: lexicographic by code point, as in
Python. -/
def strLt (s t : String) : Bool := lexLt charLt s.data t.data

/-- Strict order on paths: lexicographic on segments, as Python
compares the part tuples of two paths. -/
def pathLt (p q : FsPath) : Bool := lexLt strLt p q

/-- Nonstrict order on paths (the order `sorted` sorts by). -/
def pathLe (p q : FsPath) : Bool := !(pathLt q p)

/-- Python `list.insert` step of a stable insertion sort: place `a`
before the first element it is `le` to. -/
def orderedInsert {α : Type} (le : α → α → Bool) (a : α) : List α → List α
  | [] => [a]
  | b :: l => if le a b then a :: b :: l else b :: orderedInsert le a l

/-- Python `sorted`: a stable sort by the comparison `le`. -/
def pySorted {α : Type} (le : α → α → Bool) : List α → List α
  | [] => []
  | a :: l => orderedInsert le a (pySorted le l)

/-- `collect_markdown_files(docs_dir)`: every regular file strictly
beneath `docs_dir` whose name matches `*.md`, sorted by the path
relative to `docs_dir` (for entries beneath `docs_dir`,
`relative_to` is exactly `List.drop docs_dir.length`). -/
def collect_markdown_files (fs : Fs) (docs_dir : FsPath) : List FsPath :=
  pySorted
    (fun p q => pathLe (p.drop docs_dir.length) (q.drop docs_dir.length))
    ((fs.entries.filter
        (fun e => isUnder docs_dir e.path && matchesMdPattern e.path
          && decide (e.kind = EntryKind.file))).map
      (fun e => e.path))

/-! ### The writer and the entry point -/

/-- The observable output state of one run: what has been written to
standard output, which directories exist, and the contents of each
file. -/
structure OutState : Type where
  stdout : String
  dirs : FsPath → Bool
  fileContents : FsPath → Option String

/-- `write_output(compiled, destination)`: `None` writes `compiled` to
standard output verbatim; a path first creates every missing ancestor
directory of the destination (`parent.mkdir(parents=True,
exist_ok=True)`), then writes `compiled` as the complete contents of
the destination file. -/
def write_output (compiled : String) (destination : Option FsPath)
    (s : OutState) : OutState :=
  match destination with
  | none => { s with stdout := s.stdout ++ compiled }
  | some dest =>
    { s with
      dirs := fun d => s.dirs d || d.isPrefixOf dest.dropLast,
      fileContents := fun p =>
        if p = dest then some compiled else s.fileContents p }

/-- Split a raw character list at slashes, for parsing an output path
argument. -/
def splitSlash : List Char → List Char → List String
  | [], acc => [String.mk acc.reverse]
  | c :: cs, acc =>
    if c = '/' then String.mk acc.reverse :: splitSlash cs []
    else splitSlash cs (c :: acc)

/-- `Path(arg)` for a relative argument string: its nonempty
slash-separated segments. -/
def pathOfString (arg : String) : FsPath :=
  (splitSlash arg.data []).filter (fun seg => !(seg == ""))

/-- The sentinel of the command line: `-` (also the default when the
argument is omitted) means standard output, anything else is a
destination path. -/
def destinationOf (output : String) : Option FsPath :=
  if output = "-" then none else some (pathOfString output)

/-- `main()`: resolve `docs/10_language` beneath the repository root,
exit with an error naming the missing path when it does not exist, exit
with an error when no markdown files are found, otherwise compile and
write.  `Except.error msg` is `SystemExit(msg)` (a non-zero exit), and
the returned `OutState` is the output state after the run. -/
def runMain (fs : Fs) (repo_root : FsPath) (readText : FsPath → String)
    (output : String) (s : OutState) : Except String Unit × OutState :=
  let docs_dir := repo_root ++ ["docs", "10_language"]
  if pathExists fs docs_dir = false then
    (Except.error ("Missing docs directory: " ++ pathStr docs_dir), s)
  else
    let md_files := collect_markdown_files fs docs_dir
    if md_files = [] then
      (Except.error ("No markdown files found under " ++ pathStr docs_dir), s)
    else
      match build_compilation md_files repo_root readText with
      | none => (Except.error "ValueError", s)
      | some compiled => (Except.ok (), write_output compiled (destinationOf output) s)

/-! ### Facts about the lexicographic orders -/

theorem lexLt_irrefl {α : Type} (lt : α → α → Bool)
    (hirr : ∀ a, lt a a = false) : ∀ l, lexLt lt l l = false
  | [] => rfl
  | a :: as => by simp [lexLt, hirr a, lexLt_irrefl lt hirr as]

theorem lexLt_trans {α : Type} (lt : α → α → Bool)
    (htr : ∀ a b c, lt a b = true → lt b c = true → lt a c = true)
    (_hirr : ∀ a, lt a a = false)
    (htri : ∀ a b, lt a b = true ∨ a = b ∨ lt b a = true) :
    ∀ l1 l2 l3, lexLt lt l1 l2 = true → lexLt lt l2 l3 = true →
      lexLt lt l1 l3 = true := by
  intro l1
  induction l1 with
  | nil =>
    intro l2 l3 h12 h23
    cases l2 with
    | nil => simp [lexLt] at h12
    | cons b bs =>
      cases l3 with
      | nil => simp [lexLt] at h23
      | cons c cs => simp [lexLt]
  | cons a as ih =>
    intro l2 l3 h12 h23
    cases l2 with
    | nil => simp [lexLt] at h12
    | cons b bs =>
      cases l3 with
      | nil => simp [lexLt] at h23
      | cons c cs =>
        cases hab : lt a b with
        | true =>
          cases hbc : lt b c with
          | true => simp [lexLt, htr a b c hab hbc]
          | false =>
            cases hcb : lt c b with
            | true => simp [lexLt, hbc, hcb] at h23
            | false =>
              rcases htri b c with h | h | h
              · rw [h] at hbc; exact absurd hbc (by simp)
              · subst h; simp [lexLt, hab]
              · rw [h] at hcb; exact absurd hcb (by simp)
        | false =>
          cases hba : lt b a with
          | true => simp [lexLt, hab, hba] at h12
          | false =>
            rcases htri a b with h | h | h
            · rw [h] at hab; exact absurd hab (by simp)
            · subst h
              simp only [lexLt, hab, if_false] at h12
              cases hac : lt a c with
              | true => simp [lexLt, hac]
              | false =>
                cases hca : lt c a with
                | true => simp [lexLt, hac, hca] at h23
                | false =>
                  rcases htri a c with h | h | h
                  · rw [h] at hac; exact absurd hac (by simp)
                  · subst h
                    simp only [lexLt, hac, if_false] at h23 ⊢
                    exact ih bs cs h12 h23
                  · rw [h] at hca; exact absurd hca (by simp)
            · rw [h] at hba; exact absurd hba (by simp)

theorem lexLt_tricho {α : Type} (lt : α → α → Bool)
    (hirr : ∀ a, lt a a = false)
    (htri : ∀ a b, lt a b = true ∨ a = b ∨ lt b a = true) :
    ∀ l1 l2, lexLt lt l1 l2 = true ∨ l1 = l2 ∨ lexLt lt l2 l1 = true := by
  intro l1
  induction l1 with
  | nil =>
    intro l2
    cases l2 with
    | nil => exact Or.inr (Or.inl rfl)
    | cons b bs => exact Or.inl (by simp [lexLt])
  | cons a as ih =>
    intro l2
    cases l2 with
    | nil => exact Or.inr (Or.inr (by simp [lexLt]))
    | cons b bs =>
      rcases htri a b with h | h | h
      · exact Or.inl (by simp [lexLt, h])
      · subst h
        rcases ih bs with h2 | h2 | h2
        · exact Or.inl (by simp [lexLt, hirr a, h2])
        · exact Or.inr (Or.inl (by rw [h2]))
        · exact Or.inr (Or.inr (by simp [lexLt, hirr a, h2]))
      · exact Or.inr (Or.inr (by simp [lexLt, h]))

theorem lexLt_append_left {α : Type} (lt : α → α → Bool)
    (hirr : ∀ a, lt a a = false) :
    ∀ (c l1 l2 : List α), lexLt lt (c ++ l1) (c ++ l2) = lexLt lt l1 l2
  | [], _, _ => rfl
  | x :: c, l1, l2 => by
    simp [lexLt, hirr x, lexLt_append_left lt hirr c l1 l2]

theorem charLt_trans (a b c : Char) (h1 : charLt a b = true)
    (h2 : charLt b c = true) : charLt a c = true := by
  simp only [charLt, decide_eq_true_eq] at h1 h2 ⊢
  exact lt_trans h1 h2

theorem charLt_irrefl (a : Char) : charLt a a = false := by
  simp [charLt]

theorem charLt_tricho (a b : Char) :
    charLt a b = true ∨ a = b ∨ charLt b a = true := by
  rcases lt_trichotomy a b with h | h | h
  · exact Or.inl (by simp [charLt, h])
  · exact Or.inr (Or.inl h)
  · exact Or.inr (Or.inr (by simp [charLt, h]))

theorem strLt_trans (a b c : String) (h1 : strLt a b = true)
    (h2 : strLt b c = true) : strLt a c = true :=
  lexLt_trans charLt charLt_trans charLt_irrefl charLt_tricho
    a.data b.data c.data h1 h2

theorem strLt_irrefl (a : String) : strLt a a = false :=
  lexLt_irrefl charLt charLt_irrefl a.data

theorem strLt_tricho (a b : String) :
    strLt a b = true ∨ a = b ∨ strLt b a = true := by
  rcases lexLt_tricho charLt charLt_irrefl charLt_tricho a.data b.data
    with h | h | h
  · exact Or.inl h
  · exact Or.inr (Or.inl (String.ext h))
  · exact Or.inr (Or.inr h)

theorem pathLt_trans (p q r : FsPath) (h1 : pathLt p q = true)
    (h2 : pathLt q r = true) : pathLt p r = true :=
  lexLt_trans strLt strLt_trans strLt_irrefl strLt_tricho p q r h1 h2

theorem pathLt_irrefl (p : FsPath) : pathLt p p = false :=
  lexLt_irrefl strLt strLt_irrefl p

theorem pathLt_tricho (p q : FsPath) :
    pathLt p q = true ∨ p = q ∨ pathLt q p = true :=
  lexLt_tricho strLt strLt_irrefl strLt_tricho p q

theorem pathLe_total (p q : FsPath) : (pathLe p q || pathLe q p) = true := by
  simp only [pathLe, Bool.or_eq_true, Bool.not_eq_true']
  by_contra h
  push_neg at h
  obtain ⟨h1, h2⟩ := h
  have h1t : pathLt q p = true := by
    cases hc : pathLt q p
    · exact absurd hc h1
    · rfl
  have h2t : pathLt p q = true := by
    cases hc : pathLt p q
    · exact absurd hc h2
    · rfl
  have := pathLt_trans p q p h2t h1t
  rw [pathLt_irrefl] at this
  exact absurd this (by simp)

theorem pathLe_trans (p q r : FsPath) (h1 : pathLe p q = true)
    (h2 : pathLe q r = true) : pathLe p r = true := by
  simp only [pathLe, Bool.not_eq_true'] at h1 h2 ⊢
  by_contra h
  rw [Bool.not_eq_false] at h
  rcases pathLt_tricho p q with hpq | hpq | hpq
  · have := pathLt_trans r p q h hpq
    rw [this] at h2; exact absurd h2 (by simp)
  · subst hpq
    rw [h] at h2; exact absurd h2 (by simp)
  · rw [hpq] at h1; exact absurd h1 (by simp)

theorem pathLe_append_left (c a b : FsPath) :
    pathLe (c ++ a) (c ++ b) = pathLe a b := by
  simp only [pathLe, pathLt]
  rw [lexLt_append_left strLt strLt_irrefl c b a]

/-! ### Facts about the stable sort -/

theorem perm_orderedInsert {α : Type} (le : α → α → Bool) (a : α) :
    ∀ l : List α, (orderedInsert le a l).Perm (a :: l)
  | [] => List.Perm.refl _
  | b :: l => by
    by_cases h : le a b = true
    · simp [orderedInsert, h]
    · rw [orderedInsert, if_neg h]
      exact ((perm_orderedInsert le a l).cons b).trans (List.Perm.swap a b l)

theorem perm_pySorted {α : Type} (le : α → α → Bool) :
    ∀ l : List α, (pySorted le l).Perm l
  | [] => List.Perm.refl _
  | a :: l =>
    (perm_orderedInsert le a (pySorted le l)).trans
      ((perm_pySorted le l).cons a)

theorem mem_orderedInsert {α : Type} (le : α → α → Bool) (a : α)
    (l : List α) (x : α) : x ∈ orderedInsert le a l ↔ x = a ∨ x ∈ l :=
  ((perm_orderedInsert le a l).mem_iff).trans List.mem_cons

theorem pairwise_orderedInsert {α : Type} (le : α → α → Bool)
    (htot : ∀ a b, (le a b || le b a) = true)
    (htr : ∀ a b c, le a b = true → le b c = true → le a c = true) (a : α) :
    ∀ l : List α, l.Pairwise (fun x y => le x y = true) →
      (orderedInsert le a l).Pairwise (fun x y => le x y = true)
  | [], _ => by simp [orderedInsert]
  | b :: l, h => by
    rcases List.pairwise_cons.mp h with ⟨hb, hl⟩
    by_cases hab : le a b = true
    · rw [orderedInsert, if_pos hab]
      refine List.pairwise_cons.mpr ⟨?_, h⟩
      intro x hx
      rcases List.mem_cons.mp hx with rfl | hx2
      · exact hab
      · exact htr a b x hab (hb x hx2)
    · have hba : le b a = true := by
        have h2 := htot a b
        cases hh : le a b
        · rw [hh] at h2; simpa using h2
        · exact absurd hh hab
      rw [orderedInsert, if_neg hab]
      refine List.pairwise_cons.mpr
        ⟨?_, pairwise_orderedInsert le htot htr a l hl⟩
      intro x hx
      rcases (mem_orderedInsert le a l x).mp hx with rfl | hx2
      · exact hba
      · exact hb x hx2

theorem pairwise_pySorted {α : Type} (le : α → α → Bool)
    (htot : ∀ a b, (le a b || le b a) = true)
    (htr : ∀ a b c, le a b = true → le b c = true → le a c = true) :
    ∀ l : List α, (pySorted le l).Pairwise (fun x y => le x y = true)
  | [] => List.Pairwise.nil
  | a :: l =>
    pairwise_orderedInsert le htot htr a _ (pairwise_pySorted le htot htr l)

/-! ### Facts about the compiler and the collector -/

theorem pyRstrip_append_trailing (s : String) :
    pyRstrip (s ++ "\n\n\n") = pyRstrip s := by
  have hdata : (s ++ "\n\n\n").data = s.data ++ ['\n', '\n', '\n'] :=
    String.data_append s "\n\n\n"
  have hsp : isPySpace '\n' = true := by decide
  have hrev : (['\n', '\n', '\n'] : List Char).reverse = ['\n', '\n', '\n'] :=
    rfl
  simp [pyRstrip, hdata, List.reverse_append, hrev, List.dropWhile_cons, hsp]

theorem buildSections_eq_map (root : FsPath) (rt : FsPath → String) :
    ∀ md_files : List FsPath,
      (∀ p ∈ md_files, root.isPrefixOf p = true) →
      buildSections root rt md_files = some (md_files.map (specSection root rt))
  | [], _ => rfl
  | p :: ps, h => by
    have hp : root.isPrefixOf p = true := h p (List.mem_cons_self p ps)
    have ih := buildSections_eq_map root rt ps
      (fun q hq => h q (List.mem_cons_of_mem p hq))
    simp [buildSections, relative_to, hp, ih, specSection]

theorem buildSections_none_of_escape (root : FsPath) (rt : FsPath → String) :
    ∀ md_files : List FsPath, ∀ q ∈ md_files, root.isPrefixOf q = false →
      buildSections root rt md_files = none
  | [], q, hq, _ => absurd hq (List.not_mem_nil q)
  | p :: ps, q, hq, hfail => by
    rcases List.mem_cons.mp hq with rfl | hq2
    · simp [buildSections, relative_to, hfail]
    · have ih := buildSections_none_of_escape root rt ps q hq2 hfail
      rw [buildSections, ih]
      cases relative_to p root <;> rfl

theorem mem_collect (fs : Fs) (d : FsPath) (p : FsPath) :
    p ∈ collect_markdown_files fs d ↔
      ∃ e, e ∈ fs.entries ∧ e.path = p ∧ e.kind = EntryKind.file
        ∧ isUnder d p = true ∧ matchesMdPattern p = true := by
  unfold collect_markdown_files
  rw [(perm_pySorted _ _).mem_iff]
  simp only [List.mem_map, List.mem_filter, Bool.and_eq_true,
    decide_eq_true_eq]
  constructor
  · rintro ⟨e, ⟨he, ⟨hu, hm⟩, hk⟩, rfl⟩
    exact ⟨e, he, rfl, hk, hu, hm⟩
  · rintro ⟨e, he, rfl, hk, hu, hm⟩
    exact ⟨e, ⟨he, ⟨hu, hm⟩, hk⟩, rfl⟩

theorem nodup_collect (fs : Fs) (d : FsPath)
    (hnd : (fs.entries.map FsEntry.path).Nodup) :
    (collect_markdown_files fs d).Nodup := by
  unfold collect_markdown_files
  refine ((perm_pySorted _ _).nodup_iff).mpr ?_
  exact hnd.sublist (List.Sublist.map FsEntry.path (List.filter_sublist _))

theorem pairwise_collect (fs : Fs) (d : FsPath) :
    (collect_markdown_files fs d).Pairwise
      (fun p q => pathLe (p.drop d.length) (q.drop d.length) = true) := by
  unfold collect_markdown_files
  exact pairwise_pySorted _
    (fun p q => pathLe_total (p.drop d.length) (q.drop d.length))
    (fun p q r h1 h2 =>
      pathLe_trans (p.drop d.length) (q.drop d.length) (r.drop d.length) h1 h2)
    _

theorem prefix_of_mem_collect (fs : Fs) (d : FsPath) (p : FsPath)
    (hp : p ∈ collect_markdown_files fs d) : d.isPrefixOf p = true := by
  obtain ⟨e, _, rfl, _, hu, _⟩ := (mem_collect fs d _).mp hp
  exact (Bool.and_eq_true _ _).mp hu |>.1

theorem pathLe_drop_of_prefix (r d p q : FsPath) (hrd : r <+: d)
    (hp : d <+: p) (hq : d <+: q)
    (h : pathLe (p.drop d.length) (q.drop d.length) = true) :
    pathLe (p.drop r.length) (q.drop r.length) = true := by
  obtain ⟨p2, rfl⟩ := hp
  obtain ⟨q2, rfl⟩ := hq
  rw [List.drop_left] at h
  rw [List.drop_left] at h
  rw [List.drop_append_of_le_length hrd.length_le,
    List.drop_append_of_le_length hrd.length_le, pathLe_append_left]
  exact h

/-! ### The claims -/

/-- C1: for every non-empty list of markdown files lying beneath the
reference root, `build_compilation` returns exactly the per-file
sections joined by the separator of a blank line, `---`, and a blank
line, with one final newline appended to the joined result, where each
section is the heading line `# File: <relative-path>`, a blank line,
the content with trailing whitespace stripped, and exactly one
newline; in particular content that ends in several blank lines
contributes exactly one trailing newline, so appending blank lines to
every content leaves the output unchanged. -/
theorem build_compilation_format (md_files : List FsPath)
    (repo_root : FsPath) (readText : FsPath → String)
    (_hne : md_files ≠ [])
    (hroot : ∀ p ∈ md_files, repo_root.isPrefixOf p = true) :
    build_compilation md_files repo_root readText =
      some (String.intercalate "\n\n---\n\n"
        (md_files.map (specSection repo_root readText)) ++ "\n")
    ∧ build_compilation md_files repo_root (fun p => readText p ++ "\n\n\n") =
        build_compilation md_files repo_root readText := by
  have hsec : specSection repo_root (fun p => readText p ++ "\n\n\n") =
      specSection repo_root readText := by
    funext q
    simp [specSection, pyRstrip_append_trailing]
  constructor
  · unfold build_compilation
    rw [buildSections_eq_map repo_root readText md_files hroot]
  · unfold build_compilation
    rw [buildSections_eq_map repo_root readText md_files hroot,
      buildSections_eq_map repo_root _ md_files hroot, hsec]

/-- Witness for C1 at a concrete input. -/
theorem build_compilation_format_witness :
    build_compilation [["a.md"]] [] (fun _ => "Hello\n\n\n") =
      some (String.intercalate "\n\n---\n\n"
        ([["a.md"]].map (specSection [] (fun _ => "Hello\n\n\n"))) ++ "\n")
    ∧ build_compilation [["a.md"]] []
        (fun p => (fun _ => "Hello\n\n\n") p ++ "\n\n\n") =
        build_compilation [["a.md"]] [] (fun _ => "Hello\n\n\n") :=
  build_compilation_format [["a.md"]] [] (fun _ => "Hello\n\n\n")
    (by decide) (by decide)

/-- C2: `collect_markdown_files` returns exactly the regular files
strictly beneath the given directory whose name matches `*.md`, each
appearing once (given that filesystem paths are unique), ordered
ascending by the path relative to the given directory; it is a total
function, and the empty list is a valid result. -/
theorem collect_markdown_files_spec (fs : Fs) (docs_dir : FsPath)
    (hnd : (fs.entries.map FsEntry.path).Nodup) :
    (∀ p, p ∈ collect_markdown_files fs docs_dir ↔
      ∃ e, e ∈ fs.entries ∧ e.path = p ∧ e.kind = EntryKind.file
        ∧ isUnder docs_dir p = true ∧ matchesMdPattern p = true)
    ∧ (collect_markdown_files fs docs_dir).Nodup
    ∧ (collect_markdown_files fs docs_dir).Pairwise
        (fun p q =>
          pathLe (p.drop docs_dir.length) (q.drop docs_dir.length) = true)
    ∧ collect_markdown_files { entries := [] } docs_dir = [] :=
  ⟨mem_collect fs docs_dir, nodup_collect fs docs_dir hnd,
    pairwise_collect fs docs_dir, rfl⟩

/-- A small filesystem used to witness C2. -/
def c2Fs : Fs :=
  { entries := [
      { path := ["d", "b.md"], kind := EntryKind.file },
      { path := ["d", "a.md"], kind := EntryKind.file },
      { path := ["d"], kind := EntryKind.dir } ] }

/-- Witness for C2 at a concrete input. -/
theorem collect_markdown_files_spec_witness :
    (∀ p, p ∈ collect_markdown_files c2Fs ["d"] ↔
      ∃ e, e ∈ c2Fs.entries ∧ e.path = p ∧ e.kind = EntryKind.file
        ∧ isUnder ["d"] p = true ∧ matchesMdPattern p = true)
    ∧ (collect_markdown_files c2Fs ["d"]).Nodup
    ∧ (collect_markdown_files c2Fs ["d"]).Pairwise
        (fun p q =>
          pathLe (p.drop (["d"] : FsPath).length)
            (q.drop (["d"] : FsPath).length) = true)
    ∧ collect_markdown_files { entries := [] } ["d"] = [] :=
  collect_markdown_files_spec c2Fs ["d"] (by decide)

/-- The documentation root of the concrete scenario of C3: `a/one.md`
with content `Hello` and two trailing blank lines, and `b/two.md` with
content `World`. -/
def scenarioFs : Fs :=
  { entries := [
      { path := ["a"], kind := EntryKind.dir },
      { path := ["b"], kind := EntryKind.dir },
      { path := ["a", "one.md"], kind := EntryKind.file },
      { path := ["b", "two.md"], kind := EntryKind.file } ] }

/-- The file contents of the concrete scenario of C3. -/
def scenarioRead : FsPath → String :=
  fun p => if p = ["a", "one.md"] then "Hello\n\n\n" else "World"

/-- C3 as stated is false: the scenario output is not the claimed
string, because each section already ends with one newline and the
separator then contributes a further blank line, so two blank lines
separate `Hello` from `---`, not one. -/
theorem scenario_output_ne_claimed :
    build_compilation (collect_markdown_files scenarioFs []) [] scenarioRead ≠
      some "# File: a/one.md\n\nHello\n\n---\n\n# File: b/two.md\n\nWorld\n\n" := by
  decide

/-- C3 amended: the compiled output of the scenario is exactly the
string with two blank lines between `Hello` and the separator rule,
and the stream ends with the section newline followed by the single
appended trailing newline. -/
theorem scenario_output :
    build_compilation (collect_markdown_files scenarioFs []) [] scenarioRead =
      some "# File: a/one.md\n\nHello\n\n\n---\n\n# File: b/two.md\n\nWorld\n\n" := by
  decide

/-- C4: when the fixed documentation directory does not exist, `main`
exits with an error naming the missing path; when it exists but no
markdown file is found, `main` exits with an error; in both cases the
output state is completely untouched, so nothing reaches standard
output and a pre-existing destination file keeps its prior content. -/
theorem main_missing_or_empty (fs : Fs) (repo_root : FsPath)
    (readText : FsPath → String) (output : String) (s : OutState) :
    (pathExists fs (repo_root ++ ["docs", "10_language"]) = false →
      runMain fs repo_root readText output s =
        (Except.error ("Missing docs directory: "
          ++ pathStr (repo_root ++ ["docs", "10_language"])), s))
    ∧ (pathExists fs (repo_root ++ ["docs", "10_language"]) = true →
      collect_markdown_files fs (repo_root ++ ["docs", "10_language"]) = [] →
      runMain fs repo_root readText output s =
        (Except.error ("No markdown files found under "
          ++ pathStr (repo_root ++ ["docs", "10_language"])), s)) := by
  constructor
  · intro h
    simp [runMain, h]
  · intro hex hempty
    simp [runMain, hex, hempty]

/-- The initial output state used by the witnesses: empty standard
output, no directories, no files. -/
def emptyOut : OutState :=
  { stdout := "", dirs := fun _ => false, fileContents := fun _ => none }

/-- A filesystem holding only the empty documentation directory, used
to witness C4. -/
def emptyDocsFs : Fs :=
  { entries := [{ path := ["docs", "10_language"], kind := EntryKind.dir }] }

/-- Witness for C4: a run with no documentation directory, and a run
with an existing but empty one. -/
theorem main_missing_or_empty_witness :
    runMain { entries := [] } [] (fun _ => "") "-" emptyOut =
      (Except.error ("Missing docs directory: "
        ++ pathStr (([] : FsPath) ++ ["docs", "10_language"])), emptyOut)
    ∧ runMain emptyDocsFs [] (fun _ => "") "-" emptyOut =
      (Except.error ("No markdown files found under "
        ++ pathStr (([] : FsPath) ++ ["docs", "10_language"])), emptyOut) :=
  ⟨(main_missing_or_empty { entries := [] } [] (fun _ => "") "-" emptyOut).1
      rfl,
    (main_missing_or_empty emptyDocsFs [] (fun _ => "") "-" emptyOut).2
      (by decide) (by decide)⟩

/-- C5: over any directory tree, the compiled output of the collected
files decomposes into one section per collected file, joined by the
separator; each section begins with its heading `# File: <relpath>`,
the relative paths are pairwise distinct, and they occur in ascending
sorted order. -/
theorem compiled_headings (fs : Fs) (repo_root docs_dir : FsPath)
    (readText : FsPath → String)
    (hnd : (fs.entries.map FsEntry.path).Nodup)
    (hpre : repo_root.isPrefixOf docs_dir = true)
    (_hne : 1 ≤ (collect_markdown_files fs docs_dir).length) :
    build_compilation (collect_markdown_files fs docs_dir) repo_root readText =
      some (String.intercalate "\n\n---\n\n"
        ((collect_markdown_files fs docs_dir).map
          (specSection repo_root readText)) ++ "\n")
    ∧ ((collect_markdown_files fs docs_dir).map
        (specSection repo_root readText)).length
        = (collect_markdown_files fs docs_dir).length
    ∧ List.Forall₂
        (fun sec rel => ∃ rest,
          sec = "# File: " ++ pathStr rel ++ "\n\n" ++ rest)
        ((collect_markdown_files fs docs_dir).map
          (specSection repo_root readText))
        ((collect_markdown_files fs docs_dir).map
          (fun p => p.drop repo_root.length))
    ∧ ((collect_markdown_files fs docs_dir).map
        (fun p => p.drop repo_root.length)).Nodup
    ∧ ((collect_markdown_files fs docs_dir).map
        (fun p => p.drop repo_root.length)).Pairwise
        (fun a b => pathLe a b = true) := by
  have hdp : ∀ p ∈ collect_markdown_files fs docs_dir, docs_dir <+: p :=
    fun p hp =>
      List.isPrefixOf_iff_prefix.mp (prefix_of_mem_collect fs docs_dir p hp)
  have hrd : repo_root <+: docs_dir := List.isPrefixOf_iff_prefix.mp hpre
  have hall : ∀ p ∈ collect_markdown_files fs docs_dir,
      repo_root.isPrefixOf p = true :=
    fun p hp => List.isPrefixOf_iff_prefix.mpr ((hrd.trans (hdp p hp)))
  refine ⟨?_, List.length_map _ _, ?_, ?_, ?_⟩
  · unfold build_compilation
    rw [buildSections_eq_map repo_root readText _ hall]
  · rw [List.forall₂_map_left_iff, List.forall₂_map_right_iff,
      List.forall₂_same]
    intro p _
    exact ⟨pyRstrip (readText p) ++ "\n",
      by simp [specSection, String.append_assoc]⟩
  · refine List.Nodup.map_on ?_ (nodup_collect fs docs_dir hnd)
    intro x hx y hy hxy
    obtain ⟨x2, hx2⟩ := hrd.trans (hdp x hx)
    obtain ⟨y2, hy2⟩ := hrd.trans (hdp y hy)
    subst hx2
    subst hy2
    rw [List.drop_left, List.drop_left] at hxy
    rw [hxy]
  · rw [List.pairwise_map]
    refine (pairwise_collect fs docs_dir).imp_of_mem ?_
    intro a b ha hb h
    exact pathLe_drop_of_prefix repo_root docs_dir a b hrd
      (hdp a ha) (hdp b hb) h

/-- A one-file tree used to witness C5. -/
def c5Fs : Fs :=
  { entries := [{ path := ["d", "x.md"], kind := EntryKind.file }] }

/-- Witness for C5 at a concrete input. -/
theorem compiled_headings_witness :
    build_compilation (collect_markdown_files c5Fs ["d"]) []
        (fun _ => "T") =
      some (String.intercalate "\n\n---\n\n"
        ((collect_markdown_files c5Fs ["d"]).map
          (specSection [] (fun _ => "T"))) ++ "\n")
    ∧ ((collect_markdown_files c5Fs ["d"]).map
        (specSection [] (fun _ => "T"))).length
        = (collect_markdown_files c5Fs ["d"]).length
    ∧ List.Forall₂
        (fun sec rel => ∃ rest,
          sec = "# File: " ++ pathStr rel ++ "\n\n" ++ rest)
        ((collect_markdown_files c5Fs ["d"]).map
          (specSection [] (fun _ => "T")))
        ((collect_markdown_files c5Fs ["d"]).map
          (fun p => p.drop ([] : FsPath).length))
    ∧ ((collect_markdown_files c5Fs ["d"]).map
        (fun p => p.drop ([] : FsPath).length)).Nodup
    ∧ ((collect_markdown_files c5Fs ["d"]).map
        (fun p => p.drop ([] : FsPath).length)).Pairwise
        (fun a b => pathLe a b = true) :=
  compiled_headings c5Fs [] ["d"] (fun _ => "T")
    (by decide) (by decide) (by decide)

/-- C6: with no destination (the argument omitted or `-`), the
compiled string goes to standard output exactly as given and nothing
else changes; with a destination path, every ancestor directory of the
destination exists afterwards (none is removed), the destination file
holds exactly the compiled string, every other file keeps its content,
and standard output is untouched. -/
theorem write_output_spec (compiled : String) (dest : FsPath)
    (s : OutState) :
    (write_output compiled none s).stdout = s.stdout ++ compiled
    ∧ (write_output compiled none s).fileContents = s.fileContents
    ∧ (write_output compiled none s).dirs = s.dirs
    ∧ destinationOf "-" = none
    ∧ destinationOf "out/doc.md" = some ["out", "doc.md"]
    ∧ (∀ d : FsPath, d.isPrefixOf dest.dropLast = true →
        (write_output compiled (some dest) s).dirs d = true)
    ∧ (∀ d : FsPath, s.dirs d = true →
        (write_output compiled (some dest) s).dirs d = true)
    ∧ (write_output compiled (some dest) s).fileContents dest = some compiled
    ∧ (∀ p : FsPath, p ≠ dest →
        (write_output compiled (some dest) s).fileContents p
          = s.fileContents p)
    ∧ (write_output compiled (some dest) s).stdout = s.stdout := by
  refine ⟨rfl, rfl, rfl, rfl, by decide, ?_, ?_, by simp [write_output],
    ?_, rfl⟩
  · intro d h
    simp [write_output, h]
  · intro d h
    simp [write_output, h]
  · intro p h
    simp [write_output, h]

/-- Witness for C6 at a concrete input. -/
theorem write_output_spec_witness :
    (write_output "x" (some ["o", "f.md"]) emptyOut).dirs ["o"] = true
    ∧ (write_output "x" (some ["o", "f.md"]) emptyOut).fileContents
        ["o", "f.md"] = some "x"
    ∧ (write_output "x" (some ["o", "f.md"]) emptyOut).fileContents ["q"]
        = emptyOut.fileContents ["q"]
    ∧ (write_output "x" none emptyOut).stdout = emptyOut.stdout ++ "x" := by
  have h := write_output_spec "x" ["o", "f.md"] emptyOut
  exact ⟨h.2.2.2.2.2.1 ["o"] (by decide), h.2.2.2.2.2.2.2.1,
    h.2.2.2.2.2.2.2.2.1 ["q"] (by decide), h.1⟩

/-- C7: `build_compilation` is a deterministic function of the file
list, the file contents, and the root path: two runs whose contents
agree on every listed file produce byte-identical output. -/
theorem build_compilation_deterministic (md_files : List FsPath)
    (repo_root : FsPath) (rt1 rt2 : FsPath → String)
    (h : ∀ p ∈ md_files, rt1 p = rt2 p) :
    build_compilation md_files repo_root rt1 =
      build_compilation md_files repo_root rt2 := by
  have key : ∀ files : List FsPath, (∀ p ∈ files, rt1 p = rt2 p) →
      buildSections repo_root rt1 files = buildSections repo_root rt2 files := by
    intro files
    induction files with
    | nil => intro _; rfl
    | cons p ps ih =>
      intro hf
      have hp := hf p (List.mem_cons_self p ps)
      have ih2 := ih (fun q hq => hf q (List.mem_cons_of_mem p hq))
      simp [buildSections, hp, ih2]
  unfold build_compilation
  rw [key md_files h]

/-- Witness for C7 at a concrete input: two readers that agree on the
listed file but differ elsewhere. -/
theorem build_compilation_deterministic_witness :
    build_compilation [["a.md"]] [] (fun _ => "z") =
      build_compilation [["a.md"]] []
        (fun p => if p = [] then "q" else "z") :=
  build_compilation_deterministic [["a.md"]] [] (fun _ => "z")
    (fun p => if p = [] then "q" else "z") (by decide)

/-- C8: writing the compiled string to the same destination twice
leaves exactly the state of writing it once: the second write fully
overwrites, duplicating nothing and appending nothing. -/
theorem write_output_idempotent (compiled : String) (dest : FsPath)
    (s : OutState) :
    write_output compiled (some dest) (write_output compiled (some dest) s) =
      write_output compiled (some dest) s := by
  cases s with
  | mk st di fc =>
    simp only [write_output, OutState.mk.injEq]
    refine ⟨trivial, ?_, ?_⟩
    · funext d
      rw [Bool.or_assoc, Bool.or_self]
    · funext p
      by_cases h : p = dest
      · simp [h]
      · simp [h]

/-- C9: `build_compilation` requires every input path to lie beneath
the reference root: a list containing a path that the root is not a
prefix of makes it raise (return `none`), and when every path lies
beneath the root no error is raised. -/
theorem build_compilation_requires_relative (md_files : List FsPath)
    (repo_root : FsPath) (readText : FsPath → String) :
    ((∃ q, q ∈ md_files ∧ repo_root.isPrefixOf q = false) →
      build_compilation md_files repo_root readText = none)
    ∧ ((∀ p ∈ md_files, repo_root.isPrefixOf p = true) →
      (build_compilation md_files repo_root readText).isSome = true) := by
  constructor
  · rintro ⟨q, hq, hfail⟩
    unfold build_compilation
    rw [buildSections_none_of_escape repo_root readText md_files q hq hfail]
  · intro hall
    unfold build_compilation
    rw [buildSections_eq_map repo_root readText md_files hall]
    rfl

/-- Witness for C9: a path outside the root makes the build fail, and
a list of paths beneath the root builds successfully. -/
theorem build_compilation_requires_relative_witness :
    build_compilation [["x"]] ["r"] (fun _ => "") = none
    ∧ (build_compilation [["r", "x.md"]] ["r"] (fun _ => "hi")).isSome
        = true :=
  ⟨(build_compilation_requires_relative [["x"]] ["r"] (fun _ => "")).1
      ⟨["x"], by decide, by decide⟩,
    (build_compilation_requires_relative [["r", "x.md"]] ["r"]
        (fun _ => "hi")).2 (by decide)⟩

/-- C10: on the empty file list `build_compilation` returns exactly
the one-character string of a newline, which is not the empty string:
the empty join contributes nothing and the final trailing newline is
still appended. -/
theorem build_compilation_empty (repo_root : FsPath)
    (readText : FsPath → String) :
    build_compilation [] repo_root readText = some "\n"
    ∧ ("\n" : String) ≠ "" :=
  ⟨rfl, by decide⟩

end DocsCompiler
